import Mathlib

/-!
Verification of the LED device-activity trigger registry
(`drivers/leds/trigger/ledtrig-device.c`).

The C module keeps a global list `devs_list` of `struct ledtrig_dev_data`
entries protected by the rw-semaphore `devs_list_lock`, plus the constant
blink delay `blink_delay = BLINK_DELAY = 30`.  We embed the registry state as
a Lean structure and each C function as a pure state transformer that also
returns the trace of externally visible events it performs: list link/unlink
operations and the calls into the LED-trigger backend
(`led_trigger_register_simple`, `led_trigger_unregister_simple`,
`led_trigger_blink_oneshot`).

Modelling decisions, each noted at the definition it concerns:
* `dev_t` is a 32-bit value; we use `Nat` reduced mod `2^32` where the C code
  truncates, with `MAJOR`/`MINOR`/`MKDEV` following `<linux/kdev_t.h>`
  (`MINORBITS = 20`).
* the backend handle (`struct led_trigger *trig`) is an abstract `Option Nat`:
  `none` models the `NULL` left by `kzalloc`, and `led_trigger_register_simple`
  mints a fresh handle from a counter carried in the model state.  Allocation
  (`kzalloc`) and backend registration are modelled as always succeeding; the
  failure paths are not exercised by any claim settled here.
* each C function runs atomically between lock acquisition and release; the
  one intra-call ordering fact the spec cares about (when `ledtrig_dev_add`
  links the entry relative to the backend-registration call) is recorded in
  the event trace.
-/

/-- The C macro `MAX_NAME_LEN` (20). -/
def MAX_NAME_LEN : Nat := 20

/-- The C macro `BLINK_DELAY` (30). -/
def BLINK_DELAY : Nat := 30

/-- The global `static unsigned long blink_delay = BLINK_DELAY` — never written afterwards
(no module parameter, no store path), so modelled as a constant. -/
def blink_delay : Nat := BLINK_DELAY

/-- The C type `dev_t` (a 32-bit encoded device number). -/
abbrev DevT := Nat

/-- The macro `MAJOR(dev) = dev >> MINORBITS` on the 32-bit value, `MINORBITS = 20`. -/
def MAJOR (dev : DevT) : Nat := (dev % 2 ^ 32) >>> 20

/-- The macro `MINOR(dev) = dev & MINORMASK`, `MINORMASK = (1 << 20) - 1`. -/
def MINOR (dev : DevT) : Nat := (dev % 2 ^ 32) &&& (2 ^ 20 - 1)

/-- The macro `MKDEV(ma, mi) = (ma << MINORBITS) | mi` computed on `unsigned int`. -/
def MKDEV (ma mi : Nat) : DevT := ((ma % 2 ^ 32) * 2 ^ 20 % 2 ^ 32) ||| (mi % 2 ^ 32)

/-- The C struct `ledtrig_dev_data`: the trigger name, the device number, and the
backend handle (`struct led_trigger *trig`; `none` is `NULL`).  The intrusive
`list_head node` is represented by membership in the registry list. -/
structure LedtrigDevData where
  name : String
  dev : DevT
  trig : Option Nat
deriving DecidableEq

/-- The registry state: `devs_list` (front of the list first, as iterated by
`list_for_each_entry`) together with the backend's handle-minting counter,
which stands in for the LED-trigger core's internal state. -/
structure Registry where
  devs_list : List LedtrigDevData
  nextHandle : Nat
deriving DecidableEq

/-- The state at module load: empty list, no handles minted. -/
def initRegistry : Registry := { devs_list := [], nextHandle := 0 }

/-- Externally visible events of one registry operation, in program order:
linking/unlinking a node of `devs_list` and the three backend calls. -/
inductive Event where
  | link (dev : DevT)
  | unlink (dev : DevT)
  | backendRegister (name : String) (handle : Nat)
  | backendUnregister (handle : Option Nat)
  | fire (handle : Option Nat) (onDelay offDelay : Nat) (invert : Nat)
deriving DecidableEq

/-- The function `ledtrig_dev_new(dev)`: `kzalloc` (so `trig = NULL`), store `dev`, and
`snprintf(name, MAX_NAME_LEN, "dev-%u:%u", MAJOR(dev), MINOR(dev))`, which
truncates to `MAX_NAME_LEN - 1` characters. -/
def ledtrig_dev_new (dev : DevT) : LedtrigDevData :=
  { name := ("dev-" ++ toString (MAJOR dev) ++ ":" ++ toString (MINOR dev)).take
      (MAX_NAME_LEN - 1)
    dev := dev
    trig := none }

/-- The function `ledtrig_dev_activity(dev)`.  `writerHeld` is true when an exclusive writer
holds `devs_list_lock`, in which case `down_read_trylock` fails and the
function returns at once.  Otherwise it scans `devs_list` for the first entry
with matching `dev` and fires `led_trigger_blink_oneshot(trig, &blink_delay,
&blink_delay, 0)` on it, then releases the read lock.  The function performs
no writes to the registry. -/
def ledtrig_dev_activity (writerHeld : Bool) (st : Registry) (dev : DevT) :
    Registry × List Event :=
  if writerHeld then
    (st, [])
  else
    match st.devs_list.find? (fun e => e.dev == dev) with
    | some e => (st, [Event.fire e.trig blink_delay blink_delay 0])
    | none => (st, [])

/-- The function `ledtrig_dev_add(dev)`: allocate the candidate via `ledtrig_dev_new`, take
the write lock, scan for an entry with the same `dev`; if none is found,
`list_add` the candidate (which PREPENDS it: `list_add` inserts right after the
list head), drop the lock, and only then call
`led_trigger_register_simple(name, &trig)`, which stores the fresh handle into
the already-linked entry; its return status is not checked.  If a duplicate is
found the candidate is freed and a warning logged (no event). -/
def ledtrig_dev_add (st : Registry) (dev : DevT) : Registry × List Event :=
  let new_dev_trig := ledtrig_dev_new dev
  match st.devs_list.find? (fun e => e.dev == dev) with
  | some _ => (st, [])
  | none =>
      let linked := { new_dev_trig with trig := some st.nextHandle }
      ({ devs_list := linked :: st.devs_list, nextHandle := st.nextHandle + 1 },
       [Event.link dev, Event.backendRegister new_dev_trig.name st.nextHandle])

/-- The loop of `ledtrig_dev_del`: walk the list and, at the first entry whose
`dev` matches, `list_del` it and call `ledtrig_dev_release` (which is
`led_trigger_unregister_simple(trig)` followed by `kfree`), then break. -/
def delFirst (l : List LedtrigDevData) (dev : DevT) :
    List LedtrigDevData × List Event :=
  match l with
  | [] => ([], [])
  | e :: rest =>
      if e.dev == dev then
        (rest, [Event.unlink dev, Event.backendUnregister e.trig])
      else
        let r := delFirst rest dev
        (e :: r.1, r.2)

/-- The function `ledtrig_dev_del(dev)`, run under the write lock. -/
def ledtrig_dev_del (st : Registry) (dev : DevT) : Registry × List Event :=
  let r := delFirst st.devs_list dev
  ({ st with devs_list := r.1 }, r.2)

/-- The loop of `ledtrig_dev_remove_all`: `list_for_each` capturing `prev`
before `list_del`, then stepping back, which walks the list front to back
removing every node exactly once; each removal calls `ledtrig_dev_release`
(backend unregister + free).  Returns the surviving nodes (none) and the
event trace. -/
def removeAllLoop (l : List LedtrigDevData) : List LedtrigDevData × List Event :=
  match l with
  | [] => ([], [])
  | e :: rest =>
      let r := removeAllLoop rest
      (r.1, Event.unlink e.dev :: Event.backendUnregister e.trig :: r.2)

/-- The function `ledtrig_dev_remove_all()`, run under the write lock. -/
def ledtrig_dev_remove_all (st : Registry) : Registry × List Event :=
  let r := removeAllLoop st.devs_list
  ({ st with devs_list := r.1 }, r.2)

/-- The function `ledtrig_dev_devices_show`: under the read lock, emit one
`"%u:%u\n"`-formatted line per entry in list order.  The loop only reads; the
returned state is the untouched registry, the second component the sequence of
lines. -/
def ledtrig_dev_devices_show (st : Registry) : Registry × List String :=
  (st, st.devs_list.map (fun e => toString (MAJOR e.dev) ++ ":" ++ toString (MINOR e.dev)))

/-- Kernel `isspace` (as used by `skip_spaces` in `vsscanf`). -/
def isSpaceChar (c : Char) : Bool :=
  c = ' ' ∨ c = '\t' ∨ c = '\n' ∨ c = Char.ofNat 11 ∨ c = Char.ofNat 12 ∨ c = '\r'

/-- The helper `skip_spaces` of the kernel scanner. -/
def skipSpaces (s : List Char) : List Char :=
  match s with
  | [] => []
  | c :: rest => if isSpaceChar c then skipSpaces rest else c :: rest

/-- Decimal accumulation of `simple_strtoul`: consume leading digits, return
the value and the unconsumed remainder. -/
def parseDigits (s : List Char) (acc : Nat) : Nat × List Char :=
  match s with
  | [] => (acc, [])
  | c :: rest =>
      if c.isDigit then parseDigits rest (acc * 10 + (c.toNat - 48))
      else (acc, c :: rest)

/-- One `%u` conversion of the kernel `vsscanf`: skip whitespace, then require
a decimal digit (`%u` takes no sign) and convert the digit run; fails (the
scanner stops, yielding no further conversions) if no digit follows. -/
def parseU (s : List Char) : Option (Nat × List Char) :=
  match skipSpaces s with
  | [] => none
  | c :: rest =>
      if c.isDigit then some (parseDigits (c :: rest) 0) else none

/-- The call `sscanf(temp, "%u:%u", &major, &minor)` of the kernel scanner: a `%u`
conversion, the literal `':'` which must match the next character exactly,
then a second `%u`; succeeds (returns 2 conversions) regardless of what
trails the second number.  Each value is stored through an `unsigned int *`,
hence reduced mod `2^32`. -/
def sscanf_two_uints (s : List Char) : Option (Nat × Nat) :=
  match parseU s with
  | none => none
  | some (ma, rest) =>
      match rest with
      | ':' :: rest2 =>
          match parseU rest2 with
          | none => none
          | some (mi, _) => some (ma % 2 ^ 32, mi % 2 ^ 32)
      | _ => none

/-- The function `get_dev_from_user(buf, size, &dev)` with `dev` non-NULL: reject when
`size > sizeof(temp) = MAX_NAME_LEN` or `size == 0`; copy `size` bytes into
the stack buffer and run `sscanf` (which stops at a NUL byte, modelled by
truncating at the first NUL); reject unless both conversions succeed, else
store `MKDEV(major, minor)`.  `none` is `-EINVAL`. -/
def get_dev_from_user (buf : List Char) : Option DevT :=
  if buf.length > MAX_NAME_LEN ∨ buf.length = 0 then none
  else
    match sscanf_two_uints (buf.takeWhile (fun c => c ≠ Char.ofNat 0)) with
    | none => none
    | some (ma, mi) => some (MKDEV ma mi)

/-- The spec's device-id text format, written from the spec's words alone
("exactly the pattern `<major>:<minor>` with both fields unsigned integers"):
the whole input is a nonempty digit run, one `':'`, and a nonempty digit run,
nothing else.  Used only to compare the spec's parsing contract with
`get_dev_from_user`. -/
def strictDevPattern (s : List Char) : Option (Nat × Nat) :=
  let ma := s.takeWhile (fun c => c.isDigit)
  let rest := s.dropWhile (fun c => c.isDigit)
  if ma.isEmpty then none
  else
    match rest with
    | ':' :: rest2 =>
        if rest2.isEmpty then none
        else if rest2.all (fun c => c.isDigit) then
          some ((parseDigits ma 0).1, (parseDigits rest2 0).1)
        else none
    | _ => none

/-- The registry operations an external caller can invoke, for reasoning about
every reachable state.  `activity` carries whether an exclusive writer happens
to hold the lock at that moment. -/
inductive Op where
  | add (dev : DevT)
  | del (dev : DevT)
  | removeAll
  | activity (writerHeld : Bool) (dev : DevT)
  | showDevices
deriving DecidableEq

/-- One operation against the registry, with its event trace. -/
def step (st : Registry) (op : Op) : Registry × List Event :=
  match op with
  | .add d => ledtrig_dev_add st d
  | .del d => ledtrig_dev_del st d
  | .removeAll => ledtrig_dev_remove_all st
  | .activity w d => ledtrig_dev_activity w st d
  | .showDevices => ((ledtrig_dev_devices_show st).1, [])

/-- Run a sequence of operations from `st`, accumulating the trace after `tr`. -/
def runFrom (st : Registry) (tr : List Event) : List Op → Registry × List Event
  | [] => (st, tr)
  | op :: rest =>
      let r := step st op
      runFrom r.1 (tr ++ r.2) rest

/-- Run a sequence of operations from the module-load state. -/
def run (ops : List Op) : Registry × List Event := runFrom initRegistry [] ops

/-- Handles passed to `led_trigger_register_simple` in a trace, in order. -/
def regs (tr : List Event) : List Nat :=
  tr.filterMap (fun ev =>
    match ev with
    | .backendRegister _ h => some h
    | _ => none)

/-- Handles (as stored in the entry) passed to
`led_trigger_unregister_simple` in a trace, in order. -/
def unregHandles (tr : List Event) : List (Option Nat) :=
  tr.filterMap (fun ev =>
    match ev with
    | .backendUnregister h => some h
    | _ => none)

/-- Non-NULL handles passed to `led_trigger_unregister_simple` in a trace. -/
def unregsN (tr : List Event) : List Nat :=
  tr.filterMap (fun ev =>
    match ev with
    | .backendUnregister (some h) => some h
    | _ => none)

/-- Device ids linked into the list in a trace. -/
def linkedDevs (tr : List Event) : List DevT :=
  tr.filterMap (fun ev =>
    match ev with
    | .link d => some d
    | _ => none)

/-- Device ids unlinked from the list in a trace. -/
def unlinkedDevs (tr : List Event) : List DevT :=
  tr.filterMap (fun ev =>
    match ev with
    | .unlink d => some d
    | _ => none)

/-- An entry for `dev` is live in `st`. -/
def liveDev (st : Registry) (dev : DevT) : Prop :=
  ∃ e ∈ st.devs_list, e.dev = dev

instance (st : Registry) (dev : DevT) : Decidable (liveDev st dev) := by
  unfold liveDev; infer_instance

/-- Is the event a backend-register call? -/
def isRegisterEvent (ev : Event) : Bool :=
  match ev with
  | .backendRegister _ _ => true
  | _ => false

/-- Is the event a list-link operation? -/
def isLinkEvent (ev : Event) : Bool :=
  match ev with
  | .link _ => true
  | _ => false

/-- The handle/presence invariant relating a registry state to the trace that
produced it: an entry is in the collection exactly when its handle has been
minted by a backend-register call and not yet passed to backend-unregister;
minted handles are below the backend counter and pairwise distinct, as are the
handles stored in live entries; every unregistered handle was registered; and
no live entry has a NULL handle. -/
def RegInv (st : Registry) (tr : List Event) : Prop :=
  (∀ h : Nat, (∃ e ∈ st.devs_list, e.trig = some h) ↔ (h ∈ regs tr ∧ h ∉ unregsN tr)) ∧
  (∀ h ∈ regs tr, h < st.nextHandle) ∧
  (regs tr).Nodup ∧
  (st.devs_list.map (fun e => e.trig)).Nodup ∧
  (∀ h ∈ unregsN tr, h ∈ regs tr) ∧
  (∀ e ∈ st.devs_list, e.trig ≠ none)

/-- The claim's phrasing of the `add` ordering: somewhere in the trace a
backend-register call strictly precedes a link of the entry. -/
def registerBeforeLink (tr : List Event) : Prop :=
  ∃ i : Fin tr.length, ∃ j : Fin tr.length, i.1 < j.1 ∧
    isRegisterEvent (tr.get i) = true ∧ isLinkEvent (tr.get j) = true

instance (tr : List Event) : Decidable (registerBeforeLink tr) := by
  unfold registerBeforeLink; infer_instance

/-! ### Helper lemmas -/

theorem activity_fst (w : Bool) (st : Registry) (d : DevT) :
    (ledtrig_dev_activity w st d).1 = st := by
  unfold ledtrig_dev_activity
  cases w
  · cases st.devs_list.find? (fun e => e.dev == d) <;> rfl
  · rfl

theorem devices_show_fst (st : Registry) : (ledtrig_dev_devices_show st).1 = st := rfl

theorem find?_dev_eq_none_iff (l : List LedtrigDevData) (d : DevT) :
    l.find? (fun e => e.dev == d) = none ↔ ∀ e ∈ l, e.dev ≠ d := by
  rw [List.find?_eq_none]
  simp

theorem find?_dev_unique (l : List LedtrigDevData) (d : DevT) (e : LedtrigDevData)
    (hnd : (l.map (fun x => x.dev)).Nodup) (he : e ∈ l) (hdev : e.dev = d) :
    l.find? (fun x => x.dev == d) = some e := by
  induction l with
  | nil => cases he
  | cons x rest ih =>
      simp only [List.map_cons, List.nodup_cons] at hnd
      rcases List.mem_cons.mp he with rfl | hmem
      · simp [List.find?, hdev]
      · have hxd : (x.dev == d) = false := by
          simp only [beq_eq_false_iff_ne, ne_eq]
          intro hx
          apply hnd.1
          rw [hx, ← hdev]
          exact List.mem_map_of_mem (fun y => y.dev) hmem
        simp only [List.find?, hxd]
        exact ih hnd.2 hmem

theorem delFirst_spec (l : List LedtrigDevData) (d : DevT) :
    ((∀ e ∈ l, e.dev ≠ d) ∧ delFirst l d = (l, [])) ∨
    (∃ l1 e l2, l = l1 ++ e :: l2 ∧ e.dev = d ∧
      delFirst l d = (l1 ++ l2, [Event.unlink d, Event.backendUnregister e.trig])) := by
  induction l with
  | nil => exact Or.inl ⟨by simp, rfl⟩
  | cons e rest ih =>
      by_cases h : e.dev = d
      · refine Or.inr ⟨[], e, rest, by simp, h, ?_⟩
        simp [delFirst, h]
      · have hb : ¬ (e.dev == d) = true := by simpa using h
        rcases ih with ⟨hall, heq⟩ | ⟨l1, e0, l2, hl, hd0, heq⟩
        · refine Or.inl ⟨?_, ?_⟩
          · intro x hx
            rcases List.mem_cons.mp hx with rfl | hx
            · exact h
            · exact hall x hx
          · simp [delFirst, hb, heq]
        · refine Or.inr ⟨e :: l1, e0, l2, by simp [hl], hd0, ?_⟩
          simp [delFirst, hb, heq]

theorem delFirst_sublist (l : List LedtrigDevData) (d : DevT) :
    (delFirst l d).1.Sublist l := by
  induction l with
  | nil => simp [delFirst]
  | cons e rest ih =>
      by_cases h : (e.dev == d) = true
      · simp only [delFirst, h]
        exact List.sublist_cons_self e rest
      · simpa [delFirst, h] using List.Sublist.cons₂ e ih

theorem removeAllLoop_fst (l : List LedtrigDevData) : (removeAllLoop l).1 = [] := by
  induction l with
  | nil => rfl
  | cons e rest ih => simp [removeAllLoop, ih]

theorem unregHandles_removeAllLoop (l : List LedtrigDevData) :
    unregHandles (removeAllLoop l).2 = l.map (fun e => e.trig) := by
  induction l with
  | nil => rfl
  | cons e rest ih => simp [removeAllLoop, unregHandles, List.filterMap_cons] at ih ⊢; exact ih

theorem unlinkedDevs_removeAllLoop (l : List LedtrigDevData) :
    unlinkedDevs (removeAllLoop l).2 = l.map (fun e => e.dev) := by
  induction l with
  | nil => rfl
  | cons e rest ih => simp [removeAllLoop, unlinkedDevs, List.filterMap_cons] at ih ⊢; exact ih

theorem regs_removeAllLoop (l : List LedtrigDevData) :
    regs (removeAllLoop l).2 = [] := by
  induction l with
  | nil => rfl
  | cons e rest ih => simp [removeAllLoop, regs, List.filterMap_cons] at ih ⊢; exact ih

theorem unregsN_removeAllLoop (l : List LedtrigDevData) :
    unregsN (removeAllLoop l).2 = l.filterMap (fun e => e.trig) := by
  induction l with
  | nil => rfl
  | cons e rest ih =>
      cases htrig : e.trig <;>
        simp [removeAllLoop, unregsN, List.filterMap_cons, htrig] at ih ⊢ <;> exact ih

theorem regs_append (a b : List Event) : regs (a ++ b) = regs a ++ regs b :=
  List.filterMap_append a b _

theorem unregsN_append (a b : List Event) : unregsN (a ++ b) = unregsN a ++ unregsN b :=
  List.filterMap_append a b _

theorem unregHandles_append (a b : List Event) :
    unregHandles (a ++ b) = unregHandles a ++ unregHandles b :=
  List.filterMap_append a b _

theorem add_found_eq (st : Registry) (d : DevT) (e : LedtrigDevData)
    (hf : st.devs_list.find? (fun x => x.dev == d) = some e) :
    ledtrig_dev_add st d = (st, []) := by
  unfold ledtrig_dev_add
  rw [hf]

theorem add_not_found_eq (st : Registry) (d : DevT)
    (hf : st.devs_list.find? (fun x => x.dev == d) = none) :
    ledtrig_dev_add st d =
      ({ devs_list := { ledtrig_dev_new d with trig := some st.nextHandle } :: st.devs_list,
         nextHandle := st.nextHandle + 1 },
       [Event.link d, Event.backendRegister (ledtrig_dev_new d).name st.nextHandle]) := by
  unfold ledtrig_dev_add
  rw [hf]

theorem activity_regs (w : Bool) (st : Registry) (d : DevT) :
    regs (ledtrig_dev_activity w st d).2 = [] := by
  unfold ledtrig_dev_activity
  cases w
  · cases st.devs_list.find? (fun e => e.dev == d) <;> rfl
  · rfl

theorem activity_unregsN (w : Bool) (st : Registry) (d : DevT) :
    unregsN (ledtrig_dev_activity w st d).2 = [] := by
  unfold ledtrig_dev_activity
  cases w
  · cases st.devs_list.find? (fun e => e.dev == d) <;> rfl
  · rfl

theorem runFrom_inv (P : Registry → List Event → Prop)
    (hstep : ∀ st tr op, P st tr → P (step st op).1 (tr ++ (step st op).2)) :
    ∀ (ops : List Op) (st : Registry) (tr : List Event), P st tr →
      P (runFrom st tr ops).1 (runFrom st tr ops).2 := by
  intro ops
  induction ops with
  | nil => intro st tr h; exact h
  | cons op rest ih =>
      intro st tr h
      exact ih (step st op).1 (tr ++ (step st op).2) (hstep st tr op h)

theorem runFrom_state_inv (P : Registry → Prop)
    (hstep : ∀ st op, P st → P (step st op).1) :
    ∀ (ops : List Op) (st : Registry) (tr : List Event), P st → P (runFrom st tr ops).1 := by
  intro ops
  induction ops with
  | nil => intro st tr h; exact h
  | cons op rest ih =>
      intro st tr h
      exact ih (step st op).1 (tr ++ (step st op).2) (hstep st op h)

theorem nodupDevs_step (st : Registry) (op : Op)
    (h : (st.devs_list.map (fun e => e.dev)).Nodup) :
    ((step st op).1.devs_list.map (fun e => e.dev)).Nodup := by
  cases op with
  | add d =>
      cases hf : st.devs_list.find? (fun e => e.dev == d) with
      | some e =>
          show ((ledtrig_dev_add st d).1.devs_list.map (fun e => e.dev)).Nodup
          rw [add_found_eq st d e hf]
          exact h
      | none =>
          show ((ledtrig_dev_add st d).1.devs_list.map (fun e => e.dev)).Nodup
          rw [add_not_found_eq st d hf]
          have hall := (find?_dev_eq_none_iff _ _).mp hf
          simp only [List.map_cons, List.nodup_cons]
          refine ⟨?_, h⟩
          simp only [List.mem_map, not_exists, not_and]
          intro e he hed
          exact hall e he (by simpa [ledtrig_dev_new] using hed)
  | del d =>
      exact List.Nodup.sublist ((delFirst_sublist st.devs_list d).map _) h
  | removeAll =>
      show (((ledtrig_dev_remove_all st).1).devs_list.map (fun e => e.dev)).Nodup
      unfold ledtrig_dev_remove_all
      simp [removeAllLoop_fst]
  | activity w d =>
      show (((ledtrig_dev_activity w st d).1).devs_list.map (fun e => e.dev)).Nodup
      rw [activity_fst]
      exact h
  | showDevices => exact h

theorem RegInv_add (st : Registry) (tr : List Event) (d : DevT) (h : RegInv st tr) :
    RegInv (ledtrig_dev_add st d).1 (tr ++ (ledtrig_dev_add st d).2) := by
  obtain ⟨hiff, hlt, hndr, hndt, hsub, hnn⟩ := h
  cases hf : st.devs_list.find? (fun e => e.dev == d) with
  | some e =>
      rw [add_found_eq st d e hf]
      simpa using ⟨hiff, hlt, hndr, hndt, hsub, hnn⟩
  | none =>
      rw [add_not_found_eq st d hf]
      have hnreg : st.nextHandle ∉ regs tr := fun hm => lt_irrefl _ (hlt _ hm)
      have hnunreg : st.nextHandle ∉ unregsN tr := fun hm => hnreg (hsub _ hm)
      have htr2 : regs (tr ++ [Event.link d,
            Event.backendRegister (ledtrig_dev_new d).name st.nextHandle])
          = regs tr ++ [st.nextHandle] := by
        rw [regs_append]; rfl
      have hun2 : unregsN (tr ++ [Event.link d,
            Event.backendRegister (ledtrig_dev_new d).name st.nextHandle])
          = unregsN tr := by
        rw [unregsN_append]; simp [unregsN]
      refine ⟨?_, ?_, ?_, ?_, ?_, ?_⟩
      · intro h0
        rw [htr2, hun2]
        constructor
        · rintro ⟨e, he, htrig⟩
          rcases List.mem_cons.mp he with rfl | he'
          · have hh : st.nextHandle = h0 := by simpa using htrig
            subst hh
            exact ⟨List.mem_append_right _ (List.mem_singleton_self _), hnunreg⟩
          · obtain ⟨hm, hnu⟩ := (hiff h0).mp ⟨e, he', htrig⟩
            exact ⟨List.mem_append_left _ hm, hnu⟩
        · rintro ⟨hm, hnu⟩
          rcases List.mem_append.mp hm with hm | hm
          · obtain ⟨e, he, htrig⟩ := (hiff h0).mpr ⟨hm, hnu⟩
            exact ⟨e, List.mem_cons_of_mem _ he, htrig⟩
          · have hh : h0 = st.nextHandle := List.mem_singleton.mp hm
            subst hh
            exact ⟨_, List.mem_cons_self _ _, rfl⟩
      · intro h0 hm
        rw [htr2] at hm
        rcases List.mem_append.mp hm with hm | hm
        · exact Nat.lt_trans (hlt _ hm) (Nat.lt_succ_self _)
        · rw [List.mem_singleton.mp hm]
          exact Nat.lt_succ_self _
      · rw [htr2]
        exact List.Nodup.append hndr (List.nodup_singleton _)
          (by simpa [List.disjoint_singleton] using hnreg)
      · simp only [List.map_cons, List.nodup_cons]
        refine ⟨?_, hndt⟩
        intro hm
        obtain ⟨e, he, htrig⟩ := List.mem_map.mp hm
        exact hnreg ((hiff st.nextHandle).mp ⟨e, he, htrig⟩).1
      · rw [htr2, hun2]
        intro h0 hm
        exact List.mem_append_left _ (hsub h0 hm)
      · intro e he
        rcases List.mem_cons.mp he with rfl | he'
        · simp
        · exact hnn e he'

theorem RegInv_del (st : Registry) (tr : List Event) (d : DevT) (h : RegInv st tr) :
    RegInv (ledtrig_dev_del st d).1 (tr ++ (ledtrig_dev_del st d).2) := by
  obtain ⟨hiff, hlt, hndr, hndt, hsub, hnn⟩ := h
  rcases delFirst_spec st.devs_list d with ⟨hall, heq⟩ | ⟨l1, e0, l2, hl, hd0, heq⟩
  · unfold ledtrig_dev_del
    rw [heq]
    simpa using ⟨hiff, hlt, hndr, hndt, hsub, hnn⟩
  · have he0mem : e0 ∈ st.devs_list := by
      rw [hl]; exact List.mem_append_right _ (List.mem_cons_self _ _)
    obtain ⟨h0, htrig0⟩ : ∃ h0, e0.trig = some h0 := by
      cases htr0 : e0.trig with
      | none => exact absurd htr0 (hnn e0 he0mem)
      | some x => exact ⟨x, rfl⟩
    obtain ⟨hh0reg, hh0nun⟩ := (hiff h0).mp ⟨e0, he0mem, htrig0⟩
    have hmt : st.devs_list.map (fun e => e.trig)
        = l1.map (fun e => e.trig) ++ some h0 :: l2.map (fun e => e.trig) := by
      rw [hl, htrig0.symm]; simp
    rw [hmt] at hndt
    have hnotin1 : some h0 ∉ l1.map (fun e => e.trig) := by
      intro hm
      exact List.disjoint_of_nodup_append hndt hm (List.mem_cons_self _ _)
    obtain ⟨hnd1, hnd2c, hdisj⟩ := List.nodup_append.mp hndt
    obtain ⟨hnotin2, hnd2⟩ := List.nodup_cons.mp hnd2c
    unfold ledtrig_dev_del
    rw [heq]
    have htr2 : regs (tr ++ [Event.unlink d, Event.backendUnregister e0.trig]) = regs tr := by
      rw [regs_append]; simp [regs]
    have hun2 : unregsN (tr ++ [Event.unlink d, Event.backendUnregister e0.trig])
        = unregsN tr ++ [h0] := by
      rw [unregsN_append, htrig0]; rfl
    refine ⟨?_, ?_, ?_, ?_, ?_, ?_⟩
    · intro h1
      rw [htr2, hun2]
      constructor
      · rintro ⟨e, he, htrig⟩
        have hemem : e ∈ st.devs_list := by
          rw [hl]
          rcases List.mem_append.mp he with he' | he'
          · exact List.mem_append_left _ he'
          · exact List.mem_append_right _ (List.mem_cons_of_mem _ he')
        obtain ⟨hm, hnu⟩ := (hiff h1).mp ⟨e, hemem, htrig⟩
        have hne : h1 ≠ h0 := by
          intro hh
          subst hh
          rcases List.mem_append.mp he with he' | he'
          · exact hnotin1 (htrig ▸ List.mem_map_of_mem _ he')
          · exact hnotin2 (htrig ▸ List.mem_map_of_mem _ he')
        refine ⟨hm, ?_⟩
        intro hx
        rcases List.mem_append.mp hx with hx | hx
        · exact hnu hx
        · exact hne (List.mem_singleton.mp hx)
      · rintro ⟨hm, hnu⟩
        have hnu1 : h1 ∉ unregsN tr := fun hx => hnu (List.mem_append_left _ hx)
        have hne : h1 ≠ h0 := by
          intro hh
          exact hnu (List.mem_append_right _ (by rw [hh]; exact List.mem_singleton_self _))
        obtain ⟨e, he, htrig⟩ := (hiff h1).mpr ⟨hm, hnu1⟩
        have hene : e ≠ e0 := by
          intro hh
          rw [hh, htrig0] at htrig
          exact hne (Option.some.inj htrig).symm
        rw [hl] at he
        rcases List.mem_append.mp he with he' | he'
        · exact ⟨e, List.mem_append_left _ he', htrig⟩
        · rcases List.mem_cons.mp he' with hh | he''
          · exact absurd hh hene
          · exact ⟨e, List.mem_append_right _ he'', htrig⟩
    · rw [htr2]
      exact hlt
    · rw [htr2]
      exact hndr
    · show ((l1 ++ l2).map (fun e => e.trig)).Nodup
      rw [List.map_append]
      refine List.nodup_append.mpr ⟨hnd1, hnd2, ?_⟩
      intro a ha ha2
      exact hdisj ha (List.mem_cons_of_mem _ ha2)
    · rw [htr2, hun2]
      intro h1 hm
      rcases List.mem_append.mp hm with hm | hm
      · exact hsub h1 hm
      · rw [List.mem_singleton.mp hm]
        exact hh0reg
    · intro e he
      apply hnn e
      rw [hl]
      rcases List.mem_append.mp he with he' | he'
      · exact List.mem_append_left _ he'
      · exact List.mem_append_right _ (List.mem_cons_of_mem _ he')

theorem RegInv_removeAll (st : Registry) (tr : List Event) (h : RegInv st tr) :
    RegInv (ledtrig_dev_remove_all st).1 (tr ++ (ledtrig_dev_remove_all st).2) := by
  obtain ⟨hiff, hlt, hndr, hndt, hsub, hnn⟩ := h
  have htr2 : regs (tr ++ (removeAllLoop st.devs_list).2) = regs tr := by
    rw [regs_append, regs_removeAllLoop, List.append_nil]
  have hun2 : unregsN (tr ++ (removeAllLoop st.devs_list).2)
      = unregsN tr ++ st.devs_list.filterMap (fun e => e.trig) := by
    rw [unregsN_append, unregsN_removeAllLoop]
  unfold ledtrig_dev_remove_all
  refine ⟨?_, ?_, ?_, ?_, ?_, ?_⟩
  · intro h0
    rw [htr2, hun2]
    simp only [removeAllLoop_fst]
    constructor
    · rintro ⟨e, he, _⟩
      simp at he
    · rintro ⟨hm, hnu⟩
      exfalso
      have hnu1 : h0 ∉ unregsN tr := fun hx => hnu (List.mem_append_left _ hx)
      obtain ⟨e, he, htrig⟩ := (hiff h0).mpr ⟨hm, hnu1⟩
      exact hnu (List.mem_append_right _ (List.mem_filterMap.mpr ⟨e, he, htrig⟩))
  · rw [htr2]
    exact hlt
  · rw [htr2]
    exact hndr
  · simp [removeAllLoop_fst]
  · rw [htr2, hun2]
    intro h0 hm
    rcases List.mem_append.mp hm with hm | hm
    · exact hsub h0 hm
    · obtain ⟨e, he, htrig⟩ := List.mem_filterMap.mp hm
      exact ((hiff h0).mp ⟨e, he, htrig⟩).1
  · simp [removeAllLoop_fst]

theorem RegInv_step (st : Registry) (tr : List Event) (op : Op) (h : RegInv st tr) :
    RegInv (step st op).1 (tr ++ (step st op).2) := by
  cases op with
  | add d => exact RegInv_add st tr d h
  | del d => exact RegInv_del st tr d h
  | removeAll => exact RegInv_removeAll st tr h
  | activity w d =>
      show RegInv (ledtrig_dev_activity w st d).1 (tr ++ (ledtrig_dev_activity w st d).2)
      obtain ⟨hiff, hlt, hndr, hndt, hsub, hnn⟩ := h
      have e2 : regs (tr ++ (ledtrig_dev_activity w st d).2) = regs tr := by
        rw [regs_append, activity_regs, List.append_nil]
      have e3 : unregsN (tr ++ (ledtrig_dev_activity w st d).2) = unregsN tr := by
        rw [unregsN_append, activity_unregsN, List.append_nil]
      unfold RegInv
      rw [activity_fst, e2, e3]
      exact ⟨hiff, hlt, hndr, hndt, hsub, hnn⟩
  | showDevices =>
      show RegInv st (tr ++ [])
      rw [List.append_nil]
      exact h

theorem RegInv_init : RegInv initRegistry [] := by
  refine ⟨fun h0 => ?_, ?_, ?_, ?_, ?_, ?_⟩ <;> simp [initRegistry, regs, unregsN]

theorem RegInv_run (ops : List Op) : RegInv (run ops).1 (run ops).2 :=
  runFrom_inv RegInv RegInv_step ops initRegistry [] RegInv_init

theorem activity_unlocked (st : Registry) (d : DevT) :
    ledtrig_dev_activity false st d =
      (match st.devs_list.find? (fun e => e.dev == d) with
       | some e => (st, [Event.fire e.trig blink_delay blink_delay 0])
       | none => (st, [])) := rfl

theorem MKDEV_mod (ma mi : Nat) : MKDEV (ma % 2 ^ 32) (mi % 2 ^ 32) = MKDEV ma mi := by
  unfold MKDEV
  rw [Nat.mod_mod_of_dvd ma (dvd_refl _), Nat.mod_mod_of_dvd mi (dvd_refl _)]

theorem isDigit_not_space (c : Char) (h : c.isDigit = true) : isSpaceChar c = false := by
  unfold isSpaceChar
  simp only [decide_eq_false_iff_not]
  rintro (rfl | rfl | rfl | rfl | rfl | rfl) <;> exact absurd h (by decide)

theorem takeWhile_eq_self_of_all (p : Char → Bool) (l : List Char)
    (h : ∀ c ∈ l, p c = true) : l.takeWhile p = l := by
  induction l with
  | nil => rfl
  | cons c rest ih =>
      have hc := h c (List.mem_cons_self _ _)
      simp only [List.takeWhile_cons, hc, if_true]
      rw [ih (fun x hx => h x (List.mem_cons_of_mem _ hx))]

theorem takeWhile_digits_append (ds rest : List Char)
    (hds : ∀ c ∈ ds, c.isDigit = true)
    (hr : ∀ c l, rest = c :: l → c.isDigit = false) :
    (ds ++ rest).takeWhile (fun c => c.isDigit) = ds ∧
    (ds ++ rest).dropWhile (fun c => c.isDigit) = rest := by
  induction ds with
  | nil =>
      cases rest with
      | nil => exact ⟨rfl, rfl⟩
      | cons c l =>
          have hc := hr c l rfl
          constructor <;> simp [List.takeWhile_cons, List.dropWhile_cons, hc]
  | cons c ds ih =>
      have hc := hds c (List.mem_cons_self _ _)
      obtain ⟨h1, h2⟩ := ih (fun x hx => hds x (List.mem_cons_of_mem _ hx))
      constructor <;> simp [List.takeWhile_cons, List.dropWhile_cons, hc, h1, h2]

theorem parseDigits_append (ds rest : List Char) (acc : Nat)
    (hds : ∀ c ∈ ds, c.isDigit = true)
    (hrest : ∀ c l, rest = c :: l → c.isDigit = false) :
    parseDigits (ds ++ rest) acc = ((parseDigits ds acc).1, rest) := by
  induction ds generalizing acc with
  | nil =>
      cases rest with
      | nil => simp [parseDigits]
      | cons c l =>
          have hc := hrest c l rfl
          simp [parseDigits, hc]
  | cons c ds ih =>
      have hc := hds c (List.mem_cons_self _ _)
      simp only [List.cons_append, parseDigits, hc, if_true]
      exact ih _ (fun x hx => hds x (List.mem_cons_of_mem _ hx))

theorem parseU_strict (ds rest : List Char) (hne : ds ≠ [])
    (hds : ∀ c ∈ ds, c.isDigit = true)
    (hrest : ∀ c l, rest = c :: l → c.isDigit = false) :
    parseU (ds ++ rest) = some ((parseDigits ds 0).1, rest) := by
  cases ds with
  | nil => exact absurd rfl hne
  | cons c ds' =>
      have hc := hds c (List.mem_cons_self _ _)
      have hns := isDigit_not_space c hc
      have hskip : skipSpaces ((c :: ds') ++ rest) = c :: (ds' ++ rest) := by
        simp [skipSpaces, hns]
      unfold parseU
      rw [hskip]
      simp only [hc, if_true]
      rw [← List.cons_append, parseDigits_append (c :: ds') rest 0 hds hrest]

theorem runFrom_adds_devs (ds : List DevT) :
    ∀ (st : Registry) (tr : List Event),
      ds.Nodup → (∀ d ∈ ds, ¬ liveDev st d) →
      (runFrom st tr (ds.map Op.add)).1.devs_list.map (fun e => e.dev)
        = ds.reverse ++ st.devs_list.map (fun e => e.dev) := by
  induction ds with
  | nil =>
      intro st tr _ _
      simp [runFrom]
  | cons d rest ih =>
      intro st tr hnd hfresh
      obtain ⟨hdnm, hndr⟩ := List.nodup_cons.mp hnd
      have hf : st.devs_list.find? (fun x => x.dev == d) = none := by
        rw [find?_dev_eq_none_iff]
        intro e he hed
        exact hfresh d (List.mem_cons_self _ _) ⟨e, he, hed⟩
      have hstep : step st (Op.add d)
          = ({ devs_list :=
                 { ledtrig_dev_new d with trig := some st.nextHandle } :: st.devs_list,
               nextHandle := st.nextHandle + 1 },
             [Event.link d, Event.backendRegister (ledtrig_dev_new d).name st.nextHandle]) := by
        show ledtrig_dev_add st d = _
        exact add_not_found_eq st d hf
      show (runFrom (step st (Op.add d)).1 (tr ++ (step st (Op.add d)).2)
              (rest.map Op.add)).1.devs_list.map (fun e => e.dev)
          = (d :: rest).reverse ++ st.devs_list.map (fun e => e.dev)
      rw [hstep]
      refine Eq.trans (ih _ _ hndr ?_) ?_
      · intro d' hd' hlive
        obtain ⟨e, he, hed⟩ := hlive
        rcases List.mem_cons.mp he with rfl | he'
        · have hdd : d = d' := by simpa [ledtrig_dev_new] using hed
          exact hdnm (hdd ▸ hd')
        · exact hfresh d' (List.mem_cons_of_mem _ hd') ⟨e, he', hed⟩
      · simp [ledtrig_dev_new]

/-! ### Claims -/

/-- C1 (fire delegation): when the shared lock is acquired (no exclusive
writer, `writerHeld = false`), `signal_activity(d)` on a registry whose device
ids are unique — as they are in every reachable state — performs exactly one
backend fire call when an entry for `d` is live, on that entry's handle, with
on-duration 30, off-duration 30 and invert flag 0; and performs zero backend
calls when no entry for `d` is live. -/
theorem C1_fire_delegation (st : Registry) (d : DevT)
    (hnd : (st.devs_list.map (fun e => e.dev)).Nodup) :
    (∀ e ∈ st.devs_list, e.dev = d →
        (ledtrig_dev_activity false st d).2 = [Event.fire e.trig 30 30 0]) ∧
    (¬ liveDev st d → (ledtrig_dev_activity false st d).2 = []) := by
  constructor
  · intro e he hed
    rw [activity_unlocked, find?_dev_unique st.devs_list d e hnd he hed]
    rfl
  · intro hno
    have hf : st.devs_list.find? (fun x => x.dev == d) = none := by
      rw [find?_dev_eq_none_iff]
      intro e he hed
      exact hno ⟨e, he, hed⟩
    rw [activity_unlocked, hf]

/-- Witness for C1 at the concrete state reached by `add(8:0)`. -/
theorem C1_fire_delegation_witness :
    ((run [Op.add (MKDEV 8 0)]).1.devs_list.map (fun e => e.dev)).Nodup ∧
    (ledtrig_dev_activity false (run [Op.add (MKDEV 8 0)]).1 (MKDEV 8 0)).2
      = [Event.fire (some 0) 30 30 0] ∧
    (ledtrig_dev_activity false (run [Op.add (MKDEV 8 0)]).1 (MKDEV 9 0)).2 = [] := by
  refine ⟨by decide, ?_, ?_⟩
  · exact (C1_fire_delegation (run [Op.add (MKDEV 8 0)]).1 (MKDEV 8 0) (by decide)).1
      { name := "dev-8:0", dev := MKDEV 8 0, trig := some 0 } (by decide) (by decide)
  · exact (C1_fire_delegation (run [Op.add (MKDEV 8 0)]).1 (MKDEV 9 0) (by decide)).2
      (by decide)

/-- C2 (uniqueness): across every operation sequence from the initial state,
the device ids of the live entries are pairwise distinct at every observation
point; and an `add(d)` issued while an entry for `d` is live returns the
registry unchanged (same size, same entries) with an empty trace — no link,
no backend call — the candidate entry being discarded. -/
theorem C2_uniqueness :
    (∀ ops : List Op, ((run ops).1.devs_list.map (fun e => e.dev)).Nodup) ∧
    (∀ (st : Registry) (d : DevT), liveDev st d → ledtrig_dev_add st d = (st, [])) := by
  constructor
  · intro ops
    exact runFrom_state_inv (fun st => (st.devs_list.map (fun e => e.dev)).Nodup)
      nodupDevs_step ops initRegistry [] (by simp [initRegistry])
  · intro st d hl
    obtain ⟨e, he, hed⟩ := hl
    cases hf : st.devs_list.find? (fun x => x.dev == d) with
    | some e' => exact add_found_eq st d e' hf
    | none => exact absurd hed ((find?_dev_eq_none_iff _ _).mp hf e he)

/-- Witness for C2: duplicate `add(5)` on the state already holding `5`. -/
theorem C2_uniqueness_witness :
    ((run [Op.add 5, Op.add 5]).1.devs_list.map (fun e => e.dev)).Nodup ∧
    liveDev (run [Op.add 5]).1 5 ∧
    ledtrig_dev_add (run [Op.add 5]).1 5 = ((run [Op.add 5]).1, []) :=
  ⟨C2_uniqueness.1 [Op.add 5, Op.add 5], by decide,
   C2_uniqueness.2 (run [Op.add 5]).1 5 (by decide)⟩

/-- C3 counterexample: on `add(8:0)` from the pristine state both a link and a
backend-register call occur, but in the order link-then-register — the entry
is placed in the collection before the backend registration that obtains its
handle, so no register call precedes a link, contrary to the claimed order. -/
theorem C3_counterexample :
    (ledtrig_dev_add initRegistry (MKDEV 8 0)).2
      = [Event.link (MKDEV 8 0), Event.backendRegister "dev-8:0" 0] ∧
    ¬ registerBeforeLink (ledtrig_dev_add initRegistry (MKDEV 8 0)).2 := by
  constructor
  · rfl
  · decide

/-- C3 amended: for every reachable state an entry is in the collection iff
its handle has been obtained from the backend and not yet released; but within
`add` for a fresh id, the candidate (holding the about-to-be-minted handle) is
linked into the collection FIRST and the backend registration is invoked
AFTER the link (outside the exclusive lock), unconditionally — registration
success is never checked. -/
theorem C3_presence_iff_registered :
    (∀ (ops : List Op) (h : Nat),
        (∃ e ∈ (run ops).1.devs_list, e.trig = some h) ↔
          (h ∈ regs (run ops).2 ∧ h ∉ unregsN (run ops).2)) ∧
    (∀ (st : Registry) (d : DevT), ¬ liveDev st d →
        (ledtrig_dev_add st d).2
          = [Event.link d, Event.backendRegister (ledtrig_dev_new d).name st.nextHandle] ∧
        (ledtrig_dev_add st d).1.devs_list
          = { ledtrig_dev_new d with trig := some st.nextHandle } :: st.devs_list) := by
  constructor
  · intro ops h
    exact (RegInv_run ops).1 h
  · intro st d hno
    have hf : st.devs_list.find? (fun x => x.dev == d) = none := by
      rw [find?_dev_eq_none_iff]
      intro e he hed
      exact hno ⟨e, he, hed⟩
    rw [add_not_found_eq st d hf]
    exact ⟨rfl, rfl⟩

/-- Witness for C3 amended: the one-entry state after `add(5)`, and a fresh
`add(5)` from the pristine state. -/
theorem C3_presence_iff_registered_witness :
    ((∃ e ∈ (run [Op.add 5]).1.devs_list, e.trig = some 0) ↔
        (0 ∈ regs (run [Op.add 5]).2 ∧ 0 ∉ unregsN (run [Op.add 5]).2)) ∧
    ¬ liveDev initRegistry 5 ∧
    (ledtrig_dev_add initRegistry 5).2
      = [Event.link 5, Event.backendRegister (ledtrig_dev_new 5).name 0] :=
  ⟨C3_presence_iff_registered.1 [Op.add 5] 0, by decide,
   (C3_presence_iff_registered.2 initRegistry 5 (by decide)).1⟩

/-- C4 counterexample: after `add(8:0)` then `add(8:16)` the listing is
`["8:16", "8:0"]` — most recently added first — not the insertion order
`["8:0", "8:16"]` the claim requires. -/
theorem C4_counterexample :
    (ledtrig_dev_devices_show (run [Op.add (MKDEV 8 0), Op.add (MKDEV 8 16)]).1).2
      = ["8:16", "8:0"] ∧
    (["8:16", "8:0"] : List String) ≠ ["8:0", "8:16"] := by
  constructor
  · rfl
  · decide

/-- C4 amended: the collection's iteration order is REVERSE insertion order —
a successful `add` prepends, since `list_add` inserts at the list head, and a
`remove` deletes in place, keeping the relative order of the surviving
entries (the new collection is a sublist of the old) — and `list()` returns
the device ids of the live entries in that order, most recently inserted
first: after adds of distinct ids `ds`, the collection projects to
`ds.reverse` and the listing is its `major:minor` rendering. -/
theorem C4_listing_order (ds : List DevT) (hnd : ds.Nodup) :
    (run (ds.map Op.add)).1.devs_list.map (fun e => e.dev) = ds.reverse ∧
    (ledtrig_dev_devices_show (run (ds.map Op.add)).1).2
      = ds.reverse.map (fun d => toString (MAJOR d) ++ ":" ++ toString (MINOR d)) ∧
    (∀ (st : Registry) (d : DevT), (ledtrig_dev_del st d).1.devs_list.Sublist st.devs_list) := by
  have h1 : (run (ds.map Op.add)).1.devs_list.map (fun e => e.dev) = ds.reverse := by
    have := runFrom_adds_devs ds initRegistry [] hnd
      (by intro d hd; simp [liveDev, initRegistry])
    simpa [run, initRegistry] using this
  refine ⟨h1, ?_, fun st d => delFirst_sublist st.devs_list d⟩
  show (run (ds.map Op.add)).1.devs_list.map
      (fun e => toString (MAJOR e.dev) ++ ":" ++ toString (MINOR e.dev)) = _
  have h2 : (run (ds.map Op.add)).1.devs_list.map
      (fun e => toString (MAJOR e.dev) ++ ":" ++ toString (MINOR e.dev))
      = ((run (ds.map Op.add)).1.devs_list.map (fun e => e.dev)).map
          (fun d => toString (MAJOR d) ++ ":" ++ toString (MINOR d)) := by
    rw [List.map_map]
    rfl
  rw [h2, h1]

/-- Witness for C4 amended at `[8:0, 8:16]`. -/
theorem C4_listing_order_witness :
    ([MKDEV 8 0, MKDEV 8 16] : List DevT).Nodup ∧
    (run ([MKDEV 8 0, MKDEV 8 16].map Op.add)).1.devs_list.map (fun e => e.dev)
      = [MKDEV 8 0, MKDEV 8 16].reverse :=
  ⟨by decide, (C4_listing_order [MKDEV 8 0, MKDEV 8 16] (by decide)).1⟩

/-- C5 (round trip): from any state with no live entry for `d`, `add(d)` then
`remove(d)` restores the entry collection exactly, hence the same `list()`
output, and the two calls make equally many backend register and unregister
calls (net registration delta zero). -/
theorem C5_roundtrip (st : Registry) (d : DevT) (hno : ¬ liveDev st d) :
    (ledtrig_dev_del (ledtrig_dev_add st d).1 d).1.devs_list = st.devs_list ∧
    (ledtrig_dev_devices_show (ledtrig_dev_del (ledtrig_dev_add st d).1 d).1).2
      = (ledtrig_dev_devices_show st).2 ∧
    (regs ((ledtrig_dev_add st d).2 ++ (ledtrig_dev_del (ledtrig_dev_add st d).1 d).2)).length
      = (unregHandles ((ledtrig_dev_add st d).2
          ++ (ledtrig_dev_del (ledtrig_dev_add st d).1 d).2)).length := by
  have hf : st.devs_list.find? (fun x => x.dev == d) = none := by
    rw [find?_dev_eq_none_iff]
    intro e he hed
    exact hno ⟨e, he, hed⟩
  have hadd := add_not_found_eq st d hf
  have hdel : ledtrig_dev_del (ledtrig_dev_add st d).1 d
      = ({ devs_list := st.devs_list, nextHandle := st.nextHandle + 1 },
         [Event.unlink d, Event.backendUnregister (some st.nextHandle)]) := by
    rw [hadd]
    unfold ledtrig_dev_del delFirst
    simp [ledtrig_dev_new]
  refine ⟨?_, ?_, ?_⟩
  · rw [hdel]
  · rw [hdel]
    rfl
  · rw [hdel, hadd]
    rfl

/-- Witness for C5 from the empty registry at device `8:0`. -/
theorem C5_roundtrip_witness :
    ¬ liveDev initRegistry (MKDEV 8 0) ∧
    (ledtrig_dev_del (ledtrig_dev_add initRegistry (MKDEV 8 0)).1 (MKDEV 8 0)).1.devs_list
      = initRegistry.devs_list :=
  ⟨by decide, (C5_roundtrip initRegistry (MKDEV 8 0) (by decide)).1⟩

/-- C6 (idempotent teardown): `remove_all()` on an empty registry changes
nothing and performs no backend call; and for every state a second
`remove_all()` right after a first returns the same state and an empty trace
— two calls are observably identical to one. -/
theorem C6_idempotent_teardown :
    (∀ n : Nat, ledtrig_dev_remove_all { devs_list := [], nextHandle := n }
        = ({ devs_list := [], nextHandle := n }, [])) ∧
    (∀ st : Registry,
        ledtrig_dev_remove_all (ledtrig_dev_remove_all st).1
          = ((ledtrig_dev_remove_all st).1, [])) := by
  constructor
  · intro n
    rfl
  · intro st
    have h1 : (ledtrig_dev_remove_all st).1 = { st with devs_list := [] } := by
      show { st with devs_list := (removeAllLoop st.devs_list).1 }
          = { st with devs_list := [] }
      rw [removeAllLoop_fst]
    rw [h1]
    rfl

/-- C7 (teardown drains exactly once): `remove_all()` empties the collection,
and — despite unlinking nodes during the iteration — visits every entry
exactly once: the trace unlinks exactly the live device ids in list order and
calls the backend unregister exactly once per live entry, on that entry's
stored handle. -/
theorem C7_remove_all_exactly_once (st : Registry) :
    (ledtrig_dev_remove_all st).1.devs_list = [] ∧
    unlinkedDevs (ledtrig_dev_remove_all st).2 = st.devs_list.map (fun e => e.dev) ∧
    unregHandles (ledtrig_dev_remove_all st).2 = st.devs_list.map (fun e => e.trig) := by
  refine ⟨?_, ?_, ?_⟩
  · show ({ st with devs_list := (removeAllLoop st.devs_list).1 }).devs_list = []
    simpa using removeAllLoop_fst st.devs_list
  · exact unlinkedDevs_removeAllLoop st.devs_list
  · exact unregHandles_removeAllLoop st.devs_list

/-- C8 counterexample: the input `"1:2x"` does not match the spec's exact
`<major>:<minor>` pattern, yet `get_dev_from_user` accepts it — the scanner
ignores what trails the second number — and yields `MKDEV 1 2`. -/
theorem C8_counterexample :
    strictDevPattern ("1:2x".toList) = none ∧
    get_dev_from_user ("1:2x".toList) = some (MKDEV 1 2) := by
  constructor
  · decide
  · decide

/-- C8 amended: every input of valid size (nonempty, at most 20 bytes)
matching the exact `<major>:<minor>` pattern — a nonempty digit run, `':'`, a
nonempty digit run — is accepted with the corresponding `MKDEV` value (fields
truncated to `unsigned int`), and such an input does match `strictDevPattern`;
but acceptance is NOT limited to that pattern: inputs with leading whitespace
or trailing bytes after the second number are accepted too, as the
counterexample shows. -/
theorem C8_parse_accepts (ds rest2 : List Char)
    (hds : ds ≠ []) (hr2 : rest2 ≠ [])
    (hd1 : ∀ c ∈ ds, c.isDigit = true) (hd2 : ∀ c ∈ rest2, c.isDigit = true)
    (hlen : (ds ++ ':' :: rest2).length ≤ MAX_NAME_LEN) :
    strictDevPattern (ds ++ ':' :: rest2)
      = some ((parseDigits ds 0).1, (parseDigits rest2 0).1) ∧
    get_dev_from_user (ds ++ ':' :: rest2)
      = some (MKDEV (parseDigits ds 0).1 (parseDigits rest2 0).1) := by
  have hcolon : ∀ (c : Char) (l : List Char), ':' :: rest2 = c :: l → c.isDigit = false := by
    intro c l hcl
    cases hcl
    decide
  obtain ⟨htake, hdrop⟩ := takeWhile_digits_append ds (':' :: rest2) hd1 hcolon
  constructor
  · unfold strictDevPattern
    rw [htake, hdrop]
    have hne : ds.isEmpty = false := by
      cases ds with
      | nil => exact absurd rfl hds
      | cons a l => rfl
    have hne2 : rest2.isEmpty = false := by
      cases rest2 with
      | nil => exact absurd rfl hr2
      | cons a l => rfl
    simp only [hne, hne2, Bool.false_eq_true, if_false, List.all_eq_true]
    rw [if_pos hd2]
  · unfold get_dev_from_user
    have hlen0 : (ds ++ ':' :: rest2).length ≠ 0 := by
      cases ds with
      | nil => exact absurd rfl hds
      | cons a l => simp
    rw [if_neg (by push_neg; exact ⟨hlen, hlen0⟩)]
    have hnul : (ds ++ ':' :: rest2).takeWhile (fun c => c ≠ Char.ofNat 0)
        = ds ++ ':' :: rest2 := by
      apply takeWhile_eq_self_of_all
      intro c hc
      rcases List.mem_append.mp hc with hc' | hc'
      · have := hd1 c hc'
        apply decide_eq_true
        intro hcc
        rw [hcc] at this
        exact absurd this (by decide)
      · rcases List.mem_cons.mp hc' with rfl | hc''
        · decide
        · have := hd2 c hc''
          apply decide_eq_true
          intro hcc
          rw [hcc] at this
          exact absurd this (by decide)
    rw [hnul]
    unfold sscanf_two_uints
    rw [parseU_strict ds (':' :: rest2) hds hd1 hcolon]
    have h2 : parseU rest2 = some ((parseDigits rest2 0).1, []) := by
      have := parseU_strict rest2 [] hr2 hd2 (by intro c l h; cases h)
      simpa using this
    simp only [h2, MKDEV_mod]

/-- Witness for C8 amended at the input `"8:0"`. -/
theorem C8_parse_accepts_witness :
    ((['8'] : List Char) ≠ []) ∧ ((['0'] : List Char) ≠ []) ∧
    (∀ c ∈ (['8'] : List Char), c.isDigit = true) ∧
    (∀ c ∈ (['0'] : List Char), c.isDigit = true) ∧
    ((['8'] ++ ':' :: ['0'] : List Char).length ≤ MAX_NAME_LEN) ∧
    get_dev_from_user (['8'] ++ ':' :: ['0']) = some (MKDEV 8 0) :=
  ⟨by decide, by decide, by decide, by decide, by decide,
   (C8_parse_accepts ['8'] ['0'] (by decide) (by decide) (by decide) (by decide)
      (by decide)).2⟩

/-- C9 (non-blocking hot path): a `signal_activity(d)` call made while an
exclusive writer holds `devs_list_lock` — so the non-blocking
`down_read_trylock` fails — returns at once as a silent no-op: the registry
state is unchanged and no backend fire call is made. -/
theorem C9_nonblocking_hot_path (st : Registry) (d : DevT) :
    ledtrig_dev_activity true st d = (st, []) := rfl

/-- C10 (readers do not mutate): `signal_activity` — under either lock
outcome — and the listing operation return the registry exactly as given:
same entry collection, same membership and order, every entry's `name`,
`dev` and `trig` fields untouched. -/
theorem C10_readers_frame (w : Bool) (st : Registry) (d : DevT) :
    (ledtrig_dev_activity w st d).1 = st ∧ (ledtrig_dev_devices_show st).1 = st :=
  ⟨activity_fst w st d, rfl⟩
